import Mathlib

/-!
Verification of the Dachs/Senertec Modbus register client
(`ha_dachs_senertec_modbus`), shallowly embedded in Lean.

The embedding covers:
* the register catalog `READ_REGS` / `WRITE_REGS` (`const_bhkw.py`),
* the codec `_combine` / `_scale` (`helper/processing.py`, `sensor.py`),
* the block planner `_group_blocks` (`sensor.py`),
* the retrying client `DachsClient` (`coordinator.py`), modelled as a state
  machine over an explicit response schedule with an event trace,
* the block-merging client `_DachsClient.read_keys` (`sensor.py`).

Wire interaction is modelled by a schedule (`List Resp`) consumed one entry
per wire operation, and every wire operation and sleep is recorded in an
event trace.  Sleep durations are recorded in integer milliseconds
(0.05 s = 50 ms, 0.02 s = 20 ms).  Decoded values are rationals.
-/

/-- Raw register type, mirroring `RegType` in `const_bhkw.py`. -/
inductive RegType where
  | U16 : RegType
  | S16 : RegType
  | U32 : RegType
  | S32 : RegType
  | U64 : RegType
deriving DecidableEq

/-- One catalog entry, mirroring `RegisterDef` in `const_bhkw.py`
(`ref`, `cnt`, `type`, `fmt`, `access`). -/
structure RegSpec where
  ref : Nat
  cnt : Nat
  type : RegType
  fmt : String
  access : String
deriving DecidableEq

set_option maxHeartbeats 1000000 in
/-- The read catalog `READ_REGS` from `const_bhkw.py`, as an association
list in the source's insertion order. -/
def READ_REGS : List (String × RegSpec) := [
  ("glt_version", ⟨8000, 1, .U16, "RAW", "RO"⟩),
  ("device_type", ⟨8001, 1, .U16, "ENUM", "RO"⟩),
  ("serial_1_2", ⟨8002, 1, .U16, "RAW", "RO"⟩),
  ("serial_3_4", ⟨8003, 1, .U16, "RAW", "RO"⟩),
  ("serial_5_6", ⟨8004, 1, .U16, "RAW", "RO"⟩),
  ("serial_7_8", ⟨8005, 1, .U16, "RAW", "RO"⟩),
  ("serial_9_10", ⟨8006, 1, .U16, "RAW", "RO"⟩),
  ("serial_11_12", ⟨8007, 1, .U16, "RAW", "RO"⟩),
  ("serial_13_14", ⟨8008, 1, .U16, "RAW", "RO"⟩),
  ("serial_15_16", ⟨8009, 1, .U16, "RAW", "RO"⟩),
  ("serial_17_18", ⟨8010, 1, .U16, "RAW", "RO"⟩),
  ("serial_19_20", ⟨8011, 1, .U16, "RAW", "RO"⟩),
  ("module_nominal_power_kW", ⟨8012, 1, .U16, "FIX1", "RO"⟩),
  ("plant_status_enum", ⟨8013, 1, .U16, "ENUM", "RO"⟩),
  ("electrical_power_kW", ⟨8014, 1, .S16, "FIX1", "RO"⟩),
  ("request_type_enum", ⟨8015, 1, .U16, "ENUM", "RO"⟩),
  ("runtime_since_start_h", ⟨8016, 1, .U16, "FIX1", "RO"⟩),
  ("last_shutdown_reason_enum", ⟨8017, 1, .U16, "ENUM", "RO"⟩),
  ("pump_status_enum", ⟨8018, 1, .U16, "ENUM", "RO"⟩),
  ("temp_out_C", ⟨8019, 1, .U16, "TEMP", "RO"⟩),
  ("temp_in_C", ⟨8020, 1, .U16, "TEMP", "RO"⟩),
  ("lead_quantity_enum", ⟨8021, 1, .U16, "ENUM", "RO"⟩),
  ("min_runtime_min", ⟨8022, 1, .U16, "FIX0", "RO"⟩),
  ("max_inlet_temp_C", ⟨8023, 1, .S16, "TEMP", "RO"⟩),
  ("modulation_onoff", ⟨8024, 1, .U16, "ENUM", "RO"⟩),
  ("fixed_stage_level", ⟨8025, 1, .U16, "FIX0", "RO"⟩),
  ("module_type_enum", ⟨8026, 1, .U16, "ENUM", "RO"⟩),
  ("op_hours_total_h", ⟨8027, 2, .U32, "FIX0", "RO"⟩),
  ("start_count", ⟨8029, 2, .U32, "FIX0", "RO"⟩),
  ("energy_el_total_kWh", ⟨8031, 2, .U32, "FIX1", "RO"⟩),
  ("energy_th_total_kWh", ⟨8033, 2, .U32, "FIX1", "RO"⟩),
  ("op_hours_stage1_h", ⟨8035, 2, .U32, "FIX0", "RO"⟩),
  ("op_hours_stage2_h", ⟨8037, 2, .U32, "FIX0", "RO"⟩),
  ("op_hours_stage3_h", ⟨8039, 2, .U32, "FIX0", "RO"⟩),
  ("outdoor_temp_C", ⟨8041, 1, .S16, "TEMP", "RO"⟩),
  ("buffer_T1_C", ⟨8042, 1, .S16, "TEMP", "RO"⟩),
  ("buffer_T2_C", ⟨8043, 1, .S16, "TEMP", "RO"⟩),
  ("buffer_T3_C", ⟨8044, 1, .S16, "TEMP", "RO"⟩),
  ("buffer_T4_C", ⟨8045, 1, .S16, "TEMP", "RO"⟩),
  ("buffer_T5_unused", ⟨8046, 1, .S16, "TEMP", "RO"⟩),
  ("buffer_T6_unused", ⟨8047, 1, .S16, "TEMP", "RO"⟩),
  ("sensor1_unused", ⟨8048, 1, .S16, "TEMP", "RO"⟩),
  ("sensor2_unused", ⟨8049, 1, .S16, "TEMP", "RO"⟩),
  ("sensor3_unused", ⟨8050, 1, .S16, "TEMP", "RO"⟩),
  ("sensor4_unused", ⟨8051, 1, .S16, "TEMP", "RO"⟩),
  ("temp_sensor5_C", ⟨8052, 1, .S16, "TEMP", "RO"⟩),
  ("temp_sensor6_C", ⟨8053, 1, .S16, "TEMP", "RO"⟩),
  ("temp_sensor7_C", ⟨8054, 1, .S16, "TEMP", "RO"⟩),
  ("temp_sensor8_C", ⟨8055, 1, .S16, "TEMP", "RO"⟩),
  ("discharge_power_pct", ⟨8056, 1, .U16, "FIX0", "RO"⟩),
  ("buffer_type_enum", ⟨8057, 1, .U16, "ENUM", "RO"⟩),
  ("buffer_volume_l", ⟨8058, 1, .U16, "FIX0", "RO"⟩),
  ("buffer_sensor_cfg_enum", ⟨8059, 1, .U16, "ENUM", "RO"⟩),
  ("buffer_pos1_pct", ⟨8060, 1, .U16, "FIX0", "RO"⟩),
  ("buffer_pos2_pct", ⟨8061, 1, .U16, "FIX0", "RO"⟩),
  ("buffer_pos3_pct", ⟨8062, 1, .U16, "FIX0", "RO"⟩),
  ("buffer_pos4_pct", ⟨8063, 1, .U16, "FIX0", "RO"⟩),
  ("heat_provisioning_enum", ⟨8064, 1, .U16, "ENUM", "RO"⟩),
  ("buffer_discharge_onoff", ⟨8065, 1, .U16, "ENUM", "RO"⟩),
  ("mm_active_power_kW", ⟨8066, 1, .U16, "FIX1", "RO"⟩),
  ("mm_modules_detected", ⟨8067, 1, .U16, "FIX0", "RO"⟩),
  ("mm_modules_available", ⟨8068, 1, .U16, "FIX0", "RO"⟩),
  ("mm_modules_requested", ⟨8069, 1, .U16, "FIX0", "RO"⟩),
  ("mm_modules_running", ⟨8070, 1, .U16, "FIX0", "RO"⟩),
  ("mm_modules_configured", ⟨8071, 1, .U16, "FIX0", "RO"⟩),
  ("mm_nominal_power_kW", ⟨8072, 1, .U16, "FIX1", "RO"⟩),
  ("we2_status_enum", ⟨8073, 1, .U16, "ENUM", "RO"⟩),
  ("we2_set_status_enum", ⟨8074, 1, .U16, "ENUM", "RO"⟩),
  ("we2_start_count", ⟨8075, 2, .U32, "FIX0", "RO"⟩),
  ("we2_op_hours_h", ⟨8077, 2, .U32, "FIX0", "RO"⟩),
  ("we2_available_bool", ⟨8079, 1, .U16, "ENUM", "RO"⟩),
  ("we2_release_bool", ⟨8080, 1, .U16, "ENUM", "RO"⟩),
  ("we2_nominal_power_kW", ⟨8081, 1, .U16, "FIX1", "RO"⟩),
  ("we2_min_runtime_min", ⟨8082, 1, .U16, "FIX0", "RO"⟩),
  ("we2_connected_to_buffer", ⟨8083, 1, .U16, "ENUM", "RO"⟩)]

/-- The write catalog `WRITE_REGS` from `const_bhkw.py`. -/
def WRITE_REGS : List (String × RegSpec) := [
  ("glt_pin", ⟨8300, 1, .U16, "RAW", "RO/WO"⟩),
  ("electrical_setpoint_W", ⟨8301, 1, .U16, "FIX0", "RO/WO"⟩),
  ("bhkw_locked_bool", ⟨8302, 1, .U16, "ENUM", "RO/WO"⟩)]

/-- Dictionary lookup `READ_REGS[k]`; `none` models Python's `KeyError`. -/
def readRegs (k : String) : Option RegSpec := List.lookup k READ_REGS

/-- `_GLT_PIN_REG = WRITE_REGS["glt_pin"]["ref"]` (`coordinator.py`). -/
def _GLT_PIN_REG : Nat := 8300

/-- `NO_MERGE_KEYS` from `sensor.py` (note: `runtime_since_last_start_h` is
not a key of `READ_REGS`; the catalog key for address 8016 is
`runtime_since_start_h`). -/
def NO_MERGE_KEYS : List String := [
  "glt_version",
  "plant_status_enum",
  "request_type_enum",
  "runtime_since_last_start_h",
  "last_shutdown_reason_enum"]

/-- Membership test `k in NO_MERGE_KEYS`. -/
def noMergeReal (k : String) : Bool := NO_MERGE_KEYS.contains k

/-- `dtype in ("S16", "S32")` (`coordinator.py` / `sensor.py`). -/
def isSignedType (t : RegType) : Bool :=
  match t with
  | .S16 => true
  | .S32 => true
  | _ => false

/-! ## Codec (`helper/processing.py`: `_combine`, `_scale`) -/

/-- `_combine(regs, signed)`: big-endian word order; each register `r`
contributes the bytes `(r >> 8) & 0xFF` and `r & 0xFF`, and the byte string
is read by `int.from_bytes(b, "big", signed=signed)` (two's complement over
the byte length when `signed` and the leading byte has its top bit set). -/
def _combine (regs : List Nat) (signed : Bool) : Int :=
  let b := regs.flatMap (fun r => [r / 256 % 256, r % 256])
  let u : Nat := b.foldl (fun a x => 256 * a + x) 0
  if signed && decide (128 ≤ b.headD 0) then (u : Int) - 2 ^ (8 * b.length) else (u : Int)

/-- `(fmt or "RAW").strip().upper()`, modelled on the character list
(`String.toUpper`/`String.trim` are opaque to kernel reduction). -/
def normFmt (fmt : String) : List Char :=
  let base := if fmt = ("") then ("RAW") else fmt
  (((base.toList.dropWhile Char.isWhitespace).reverse.dropWhile
      Char.isWhitespace).reverse).map Char.toUpper

/-- `int(digits)` for a list of decimal digit characters (`int("" ) = 0` is
never taken: the source guards with `if digits else 0`). -/
def digitsVal (cs : List Char) : Nat := cs.foldl (fun a c => 10 * a + (c.toNat - 48)) 0

/-- `_scale(value, fmt)` from `helper/processing.py` / `sensor.py`:
`FIXn` divides by `10^n` where the digits are
`"".join(ch for ch in f[3:] if ch.isdigit())`; `TEMP` is
`round(value / 10.0, 1)`; anything else passes through.  Real arithmetic is
idealised over ℚ, with `round(x, 1)` as `round(10 * x) / 10`. -/
def _scale (value : Int) (fmt : String) : ℚ :=
  let f := normFmt fmt
  if f.take 3 = ['F', 'I', 'X'] then
    let digits := (f.drop 3).filter Char.isDigit
    let p := if digits = [] then 0 else digitsVal digits
    (value : ℚ) / 10 ^ p
  else if f = ['T', 'E', 'M', 'P'] then (round ((value : ℚ) / 10 * 10) : ℚ) / 10
  else (value : ℚ)

/-! ## Block planner (`sensor.py`: `_group_blocks`)

The source reads the module-level dictionaries `READ_REGS` and
`NO_MERGE_KEYS`; here they are passed as the parameters `lookup` and
`noMerge`, and the key type is kept abstract (the source only ever uses keys
for dictionary lookup and set membership). -/

/-- The span-building loop of `_group_blocks`: for each key, span
`(s, s + cnt - 1)`, truncated to `(s, s)` for no-merge keys; a missing key
is Python's `KeyError`. -/
def buildSpans (lookup : κ → Option RegSpec) (noMerge : κ → Bool) :
    List κ → Option (List (Nat × Nat))
  | [] => some []
  | k :: ks =>
    match lookup k with
    | none => none
    | some spec =>
      let s := spec.ref
      let e := if noMerge k then s else s + spec.cnt - 1
      (buildSpans lookup noMerge ks).map (fun rest => (s, e) :: rest)

/-- `spans.sort(key=lambda x: x[0])` (a stable sort by start address). -/
def sortSpans (spans : List (Nat × Nat)) : List (Nat × Nat) :=
  spans.mergeSort (fun a b => a.1 ≤ b.1)

/-- The merge walk of `_group_blocks` with an open range `(curS, curE)`:
extend exactly when the next start is `curE + 1`, else close and reopen. -/
def mergeLoop (curS curE : Nat) : List (Nat × Nat) → List (Nat × Nat)
  | [] => [(curS, curE)]
  | (s, e) :: rest =>
    if s = curE + 1 then mergeLoop curS e rest
    else (curS, curE) :: mergeLoop s e rest

/-- The whole merge pass (`cur_s is None` initially). -/
def mergeSpans : List (Nat × Nat) → List (Nat × Nat)
  | [] => []
  | (s, e) :: rest => mergeLoop s e rest

/-- The `while cur <= e` splitting loop, with explicit fuel (`e + 1 - cur`
suffices since `cur` strictly increases each iteration). -/
def splitChunksAux : Nat → Nat → Nat → List (Nat × Nat)
  | 0, _, _ => []
  | fuel + 1, cur, e =>
    if cur ≤ e then
      (cur, min (cur + 50 - 1) e) :: splitChunksAux fuel (min (cur + 50 - 1) e + 1) e
    else []

/-- Split one merged range into ≤ 50-register chunks. -/
def splitChunks (s e : Nat) : List (Nat × Nat) := splitChunksAux (e + 1 - s) s e

/-- `_group_blocks(keys)`: build spans, sort by start, merge strictly
contiguous neighbours, split into ≤ 50-register chunks. -/
def _group_blocks (lookup : κ → Option RegSpec) (noMerge : κ → Bool)
    (keys : List κ) : Option (List (Nat × Nat)) :=
  (buildSpans lookup noMerge keys).map (fun spans =>
    (mergeSpans (sortSpans spans)).flatMap (fun p => splitChunks p.1 p.2))

/-! ## Wire model

A wire interaction is driven by a schedule: each primitive wire operation
(TCP connect, FC=06 write, FC=04 read) consumes one schedule entry that
determines its outcome, and appends one event to the trace. -/

/-- Outcome of one wire operation: `good rs` is a successful response
(`rs` are the returned registers, ignored for connects and writes),
`bad` is a socket-level failure / error response. -/
inductive Resp where
  | good : List Nat → Resp
  | bad : Resp
deriving DecidableEq

/-- Observable event: wire operation or a `time.sleep` (milliseconds). -/
inductive Ev where
  | connectEv : Ev
  | writeEv : Nat → Int → Ev
  | readEv : Nat → Nat → Ev
  | sleepEv : Nat → Ev
deriving DecidableEq

/-- Error taxonomy: `connErr` is `ConnectionError` (connect failure),
`ioErr` is `IOError`/`OSError` from a read/write, `keyErr` is `KeyError`
from a catalog lookup, `valueErr` is `ValueError` (heartbeat without PIN).
In Python, `ConnectionError` and `IOError` are both `OSError` subclasses,
so the `except (OSError, socket.error, IOError)` clauses catch both. -/
inductive Err where
  | connErr : Err
  | ioErr : Err
  | keyErr : Err
  | valueErr : Err
deriving DecidableEq

/-- Is this error caught by `except (OSError, socket.error, IOError)`? -/
def isOSError (e : Err) : Bool :=
  match e with
  | .connErr => true
  | .ioErr => true
  | _ => false

namespace Coord

/-! State machine for `DachsClient` in `coordinator.py`.  The state holds
whether `self._client` is set, the remembered heartbeat PIN `self._pin`,
and the remaining wire schedule.  Every operation returns
`(result, state, events)`. -/

/-- Mutable state of `DachsClient` plus the wire schedule. -/
structure St where
  client : Bool
  pin : Option Int
  sched : List Resp
deriving DecidableEq

/-- Result of an operation: outcome, next state, events emitted. -/
abbrev Res (α : Type) := Except Err α × St × List Ev

/-- Consume the next scheduled response (an empty schedule acts as `bad`). -/
def take1 (st : St) : Resp × St :=
  match st.sched with
  | [] => (Resp.bad, st)
  | r :: rest => (r, { st with sched := rest })

/-- The raw FC=06 write in `_write_register` after the connection is held:
issue the write, fail with `IOError` on no/error response.  (The
`self._conn()` call inside `_write_register` is the identity whenever the
client is already connected, which is the case at every use below.) -/
def writeNoConn (addr : Nat) (v : Int) (st : St) : Res Unit :=
  let (r, st1) := take1 st
  match r with
  | .good _ => (Except.ok (), st1, [Ev.writeEv addr v])
  | .bad => (Except.error Err.ioErr, st1, [Ev.writeEv addr v])

/-- `_conn()`: reuse the client if set; otherwise connect (raising
`ConnectionError` on failure), then, if a PIN is remembered, immediately
re-send the heartbeat, swallowing any exception from it. -/
def conn (st : St) : Res Unit :=
  if st.client then (Except.ok (), st, [])
  else
    let (r, st1) := take1 st
    match r with
    | .bad => (Except.error Err.connErr, st1, [Ev.connectEv])
    | .good _ =>
      let st2 := { st1 with client := true }
      match st2.pin with
      | none => (Except.ok (), st2, [Ev.connectEv])
      | some p =>
        let (_, st3, t) := writeNoConn _GLT_PIN_REG p st2
        (Except.ok (), st3, Ev.connectEv :: t)

/-- `_write_register(address, value)`: ensure a connection, then write. -/
def writeRegister (addr : Nat) (v : Int) (st : St) : Res Unit :=
  match conn st with
  | (Except.error e, st1, t) => (Except.error e, st1, t)
  | (Except.ok _, st1, t) =>
    let (r, st2, t2) := writeNoConn addr v st1
    (r, st2, t ++ t2)

/-- `_reconnect_and_reheart()`: drop the client, reconnect via `_conn()`
(which already re-sends the PIN), then re-send the PIN once more,
swallowing any exception from that second send. -/
def reconnectAndReheart (st : St) : Res Unit :=
  let st0 := { st with client := false }
  match conn st0 with
  | (Except.error e, st1, t) => (Except.error e, st1, t)
  | (Except.ok _, st1, t) =>
    match st1.pin with
    | none => (Except.ok (), st1, t)
    | some p =>
      let (_, st2, t2) := writeNoConn _GLT_PIN_REG p st1
      (Except.ok (), st2, t ++ t2)

/-- `_fc4_read(cli, addr, cnt, unit)`: FC=04 read; `IOError` on failure. -/
def fc4Read (addr cnt : Nat) (st : St) : Res (List Nat) :=
  let (r, st1) := take1 st
  match r with
  | .good rs => (Except.ok rs, st1, [Ev.readEv addr cnt])
  | .bad => (Except.error Err.ioErr, st1, [Ev.readEv addr cnt])

/-- `_read_keys_once(cli, keys)`: one pass of per-key FC=04 reads with
decode and a 20 ms politeness pause after each key; no reconnect here. -/
def readKeysOnce : List String → St → Res (List (String × ℚ))
  | [], st => (Except.ok [], st, [])
  | k :: ks, st =>
    match readRegs k with
    | none => (Except.error Err.keyErr, st, [])
    | some spec =>
      match fc4Read spec.ref spec.cnt st with
      | (Except.error e, st1, t) => (Except.error e, st1, t)
      | (Except.ok regs, st1, t) =>
        let v := _scale (_combine regs (isSignedType spec.type)) spec.fmt
        match readKeysOnce ks st1 with
        | (Except.error e, st2, t2) => (Except.error e, st2, t ++ Ev.sleepEv 20 :: t2)
        | (Except.ok m, st2, t2) => (Except.ok ((k, v) :: m), st2, t ++ Ev.sleepEv 20 :: t2)

/-- The `while True` retry loop of `_read_keys`, with the attempt counter
and explicit fuel.  On an `OSError`-family failure with `attempt + 1 ≤ 3`:
reconnect (a reconnect failure propagates, as `_reconnect_and_reheart()` is
called inside the `except` handler), sleep `50 * a * a` ms
(`_RETRY_BASE_SLEEP * attempt ** 2` with `_RETRY_BASE_SLEEP = 0.05 s`), and
retry the entire pass.  Fuel 3 is enough: the loop recurses at most
`_RETRY_ATTEMPTS = 3` times, so the fuel-exhausted arm (which propagates
the error like the ceiling arm) is unreachable from `readKeys`. -/
def readKeysGo (keys : List String) : Nat → Nat → St → Res (List (String × ℚ))
  | fuel, attempt, st =>
    match readKeysOnce keys st with
    | (Except.ok m, st1, t) => (Except.ok m, st1, t)
    | (Except.error e, st1, t) =>
      if isOSError e then
        let a := attempt + 1
        if 3 < a then (Except.error e, st1, t)
        else
          match fuel with
          | 0 => (Except.error e, st1, t)
          | fuel' + 1 =>
            match reconnectAndReheart st1 with
            | (Except.error e2, st2, t2) => (Except.error e2, st2, t ++ t2)
            | (Except.ok _, st2, t2) =>
              let (r, st3, t3) := readKeysGo keys fuel' a st2
              (r, st3, t ++ t2 ++ Ev.sleepEv (50 * a * a) :: t3)
      else (Except.error e, st1, t)

/-- `_read_keys(keys)`: empty input short-circuits before any connection;
otherwise connect lazily and run the retry loop. -/
def readKeys (keys : List String) (st : St) : Res (List (String × ℚ)) :=
  if keys = [] then (Except.ok [], st, [])
  else
    match conn st with
    | (Except.error e, st1, t) => (Except.error e, st1, t)
    | (Except.ok _, st1, t) =>
      let (r, st2, t2) := readKeysGo keys 3 0 st1
      (r, st2, t ++ t2)

/-- `heartbeat(pin)`: remember a provided PIN first, fail with
`ValueError` if none is known, else write it; on an `OSError`-family
failure, reconnect-and-reheart and retry the write once (the retry's
outcome propagates). -/
def heartbeat (pinArg : Option Int) (st : St) : Res Unit :=
  let st1 :=
    match pinArg with
    | some p => { st with pin := some p }
    | none => st
  match st1.pin with
  | none => (Except.error Err.valueErr, st1, [])
  | some p =>
    match writeRegister _GLT_PIN_REG p st1 with
    | (Except.ok _, st2, t) => (Except.ok (), st2, t)
    | (Except.error _, st2, t) =>
      match reconnectAndReheart st2 with
      | (Except.error e2, st3, t2) => (Except.error e2, st3, t ++ t2)
      | (Except.ok _, st3, t2) =>
        let (r, st4, t3) := writeRegister _GLT_PIN_REG p st3
        (r, st4, t ++ t2 ++ t3)

end Coord

namespace Sens

/-! State machine for `_DachsClient` in `sensor.py` (the block-merging
client): no heartbeat state, a single reconnect attempt per failed block
read, per-key `None` on a failed cache slice. -/

/-- Mutable state of `_DachsClient` plus the wire schedule. -/
structure St where
  client : Bool
  sched : List Resp
deriving DecidableEq

/-- Result of an operation: outcome, next state, events emitted. -/
abbrev Res (α : Type) := Except Err α × St × List Ev

/-- Consume the next scheduled response (an empty schedule acts as `bad`). -/
def take1 (st : St) : Resp × St :=
  match st.sched with
  | [] => (Resp.bad, st)
  | r :: rest => (r, { st with sched := rest })

/-- `_conn()`: reuse the client if set, else connect; no heartbeat here. -/
def conn (st : St) : Res Unit :=
  if st.client then (Except.ok (), st, [])
  else
    let (r, st1) := take1 st
    match r with
    | .bad => (Except.error Err.connErr, st1, [Ev.connectEv])
    | .good _ => (Except.ok (), { st1 with client := true }, [Ev.connectEv])

/-- `_fc4_read(client, addr, cnt, unit)`. -/
def fc4Read (addr cnt : Nat) (st : St) : Res (List Nat) :=
  let (r, st1) := take1 st
  match r with
  | .good rs => (Except.ok rs, st1, [Ev.readEv addr cnt])
  | .bad => (Except.error Err.ioErr, st1, [Ev.readEv addr cnt])

/-- `_slice(cache, addr, cnt)`: first cached block containing the window
`[addr, addr + cnt)` yields `data[addr - s : addr - s + cnt]`; the length
comparison is over ℤ since `s + len(data) - cnt` may be negative. -/
def _slice : List (Nat × List Nat) → Nat → Nat → Option (List Nat)
  | [], _, _ => none
  | (s, data) :: rest, addr, cnt =>
    if s ≤ addr ∧ (addr : Int) ≤ (s : Int) + data.length - cnt then
      some ((data.drop (addr - s)).take cnt)
    else _slice rest addr cnt

/-- The block-fetch loop of `read_keys`: read each planned block into the
cache; on a socket failure drop the connection, reconnect once (a connect
failure propagates) and retry that block once (a second failure
propagates); sleep 20 ms after each block. -/
def readBlocks : List (Nat × Nat) → St → Res (List (Nat × List Nat))
  | [], st => (Except.ok [], st, [])
  | (s, e) :: bs, st =>
    let cnt := e + 1 - s
    match fc4Read s cnt st with
    | (Except.ok rs, st1, t) =>
      (match readBlocks bs st1 with
       | (Except.error e2, st2, t2) => (Except.error e2, st2, t ++ Ev.sleepEv 20 :: t2)
       | (Except.ok m, st2, t2) => (Except.ok ((s, rs) :: m), st2, t ++ Ev.sleepEv 20 :: t2))
    | (Except.error _, st1, t) =>
      let st2 := { st1 with client := false }
      match conn st2 with
      | (Except.error e2, st3, t2) => (Except.error e2, st3, t ++ t2)
      | (Except.ok _, st3, t2) =>
        match fc4Read s cnt st3 with
        | (Except.error e3, st4, t3) => (Except.error e3, st4, t ++ t2 ++ t3)
        | (Except.ok rs, st4, t3) =>
          match readBlocks bs st4 with
          | (Except.error e4, st5, t4) =>
            (Except.error e4, st5, t ++ t2 ++ t3 ++ Ev.sleepEv 20 :: t4)
          | (Except.ok m, st5, t4) =>
            (Except.ok ((s, rs) :: m), st5, t ++ t2 ++ t3 ++ Ev.sleepEv 20 :: t4)

/-- The decode loop of `read_keys`: every requested key gets an entry;
a key whose slice is not in the cache maps to `none`. -/
def decodeKeys (cache : List (Nat × List Nat)) : List String →
    Except Err (List (String × Option ℚ))
  | [] => Except.ok []
  | k :: ks =>
    match readRegs k with
    | none => Except.error Err.keyErr
    | some spec =>
      match _slice cache spec.ref spec.cnt with
      | none => (decodeKeys cache ks).map (fun m => (k, none) :: m)
      | some regs =>
        let v := _scale (_combine regs (isSignedType spec.type)) spec.fmt
        (decodeKeys cache ks).map (fun m => (k, some v) :: m)

/-- `read_keys(keys)`: connect (even for an empty key list), plan blocks,
fetch them, then decode every requested key. -/
def readKeys (keys : List String) (st : St) : Res (List (String × Option ℚ)) :=
  match conn st with
  | (Except.error e, st1, t) => (Except.error e, st1, t)
  | (Except.ok _, st1, t) =>
    match _group_blocks readRegs noMergeReal keys with
    | none => (Except.error Err.keyErr, st1, t)
    | some blocks =>
      match readBlocks blocks st1 with
      | (Except.error e, st2, t2) => (Except.error e, st2, t ++ t2)
      | (Except.ok cache, st2, t2) =>
        match decodeKeys cache keys with
        | Except.error e => (Except.error e, st2, t ++ t2)
        | Except.ok out => (Except.ok out, st2, t ++ t2)

end Sens

/-! ## Observers and concrete instances used by the claims -/

/-- The retry-backoff sleeps of a trace: every sleep except the fixed
20 ms per-key/per-block politeness pause. -/
def retrySleeps (t : List Ev) : List Nat :=
  t.filterMap (fun e =>
    match e with
    | Ev.sleepEv d => if d = 20 then none else some d
    | _ => none)

/-- The catalog keys with spans covering addresses 8013–8020 (all one
word wide), three of them no-merge. -/
def statusKeys : List String := [
  "plant_status_enum",
  "electrical_power_kW",
  "request_type_enum",
  "runtime_since_start_h",
  "last_shutdown_reason_enum",
  "pump_status_enum",
  "temp_out_C",
  "temp_in_C"]

/-- A hypothetical catalog of 120 contiguous single-word registers
(keys `0`–`119` at addresses 8000–8119), for the spec's 120-key test. -/
def catalog120 : Nat → Option RegSpec :=
  fun i => if i < 120 then some ⟨8000 + i, 1, .U16, "RAW", "RO"⟩ else none

/-- All word addresses covered by a list of inclusive ranges, in order. -/
def blockAddrs (rs : List (Nat × Nat)) : List Nat :=
  rs.flatMap (fun p => List.range' p.1 (p.2 + 1 - p.1))

/-- Interval disjointness of two inclusive spans. -/
def spanDisjoint (p q : Nat × Nat) : Prop := p.2 < q.1 ∨ q.2 < p.1

/-! ## Helper lemmas -/

unseal List.merge List.mergeSort

namespace Coord

theorem take1_eq (st : St) :
    take1 st = (st.sched.headD Resp.bad, { st with sched := st.sched.tail }) := by
  rcases st with ⟨c, p, sch⟩
  cases sch <;> rfl

theorem writeNoConn_eq (addr : Nat) (v : Int) (st : St) :
    writeNoConn addr v st =
      ((match st.sched.headD Resp.bad with
        | Resp.good _ => Except.ok ()
        | Resp.bad => Except.error Err.ioErr),
       { st with sched := st.sched.tail }, [Ev.writeEv addr v]) := by
  rcases st with ⟨c, p, sch⟩
  cases sch with
  | nil => rfl
  | cons r rest => cases r <;> rfl

theorem conn_true (st : St) (h : st.client = true) : conn st = (Except.ok (), st, []) := by
  simp [conn, h]

theorem conn_good_pin (p : Int) (rs : List Nat) (tl : List Resp) :
    conn ⟨false, some p, Resp.good rs :: tl⟩ =
      (Except.ok (), ⟨true, some p, tl.tail⟩,
       [Ev.connectEv, Ev.writeEv _GLT_PIN_REG p]) := by
  cases tl with
  | nil => rfl
  | cons r2 tl2 => cases r2 <;> rfl

theorem reconnect_good_pin (c : Bool) (p : Int) (rs : List Nat) (tl : List Resp) :
    reconnectAndReheart ⟨c, some p, Resp.good rs :: tl⟩ =
      (Except.ok (), ⟨true, some p, tl.drop 2⟩,
       [Ev.connectEv, Ev.writeEv _GLT_PIN_REG p, Ev.writeEv _GLT_PIN_REG p]) := by
  cases tl with
  | nil => rfl
  | cons r2 tl2 =>
    cases r2 <;>
      (cases tl2 with
       | nil => rfl
       | cons r3 tl3 => cases r3 <;> rfl)

theorem writeNoConn_pin (addr : Nat) (v : Int) (st : St) :
    ((writeNoConn addr v st).2.1).pin = st.pin := by
  rcases st with ⟨c, p, sch⟩
  cases sch with
  | nil => rfl
  | cons r rest => cases r <;> rfl

theorem conn_pin (st : St) : ((conn st).2.1).pin = st.pin := by
  rcases st with ⟨c, p, sch⟩
  cases c with
  | true => rfl
  | false =>
    cases sch with
    | nil => rfl
    | cons r rest =>
      cases r with
      | bad => rfl
      | good rs =>
        cases p with
        | none => rfl
        | some q =>
          cases rest with
          | nil => rfl
          | cons r2 rest2 => cases r2 <;> rfl

theorem writeRegister_pin (addr : Nat) (v : Int) (st : St) :
    ((writeRegister addr v st).2.1).pin = st.pin := by
  have hc := conn_pin st
  rcases h : conn st with ⟨r, st1, t⟩
  rw [h] at hc
  have hw := writeNoConn_pin addr v st1
  cases r <;> simp [writeRegister, h] <;> simp_all

theorem reconnect_pin (st : St) : ((reconnectAndReheart st).2.1).pin = st.pin := by
  have hc := conn_pin { st with client := false }
  rcases h : conn { st with client := false } with ⟨r, st1, t⟩
  rw [h] at hc
  cases r with
  | error e => simp [reconnectAndReheart, h]; simp_all
  | ok _ =>
    rcases hp : st1.pin with _ | p
    · simp [reconnectAndReheart, h, hp]; simp_all
    · have hw := writeNoConn_pin _GLT_PIN_REG p st1
      simp [reconnectAndReheart, h, hp]
      simp_all

end Coord


namespace Coord

theorem reconnect_good_pin2 (st : St) (p : Int) (rs : List Nat) (tl : List Resp)
    (hp : st.pin = some p) (hs : st.sched = Resp.good rs :: tl) :
    reconnectAndReheart st =
      (Except.ok (), ⟨true, some p, tl.drop 2⟩,
       [Ev.connectEv, Ev.writeEv _GLT_PIN_REG p, Ev.writeEv _GLT_PIN_REG p]) := by
  rcases st with ⟨c, pin, sch⟩
  simp only at hp hs
  subst hp; subst hs
  exact reconnect_good_pin c p rs tl

theorem heartbeat_pin (st : St) (p : Int) :
    ((heartbeat (some p) st).2.1).pin = some p := by
  have h1 : ({ st with pin := some p } : St).pin = some p := rfl
  rcases hw : writeRegister _GLT_PIN_REG p { st with pin := some p } with ⟨r, st2, t⟩
  have hp2 : st2.pin = some p := by
    have h := writeRegister_pin _GLT_PIN_REG p { st with pin := some p }
    rw [hw] at h; simpa using h
  cases r with
  | ok _ => simp [heartbeat, hw, hp2]
  | error e =>
    rcases hr : reconnectAndReheart st2 with ⟨r2, st3, t2⟩
    have hp3 : st3.pin = some p := by
      have h := reconnect_pin st2
      rw [hr] at h; simpa [hp2] using h
    cases r2 with
    | error e2 => simp [heartbeat, hw, hr, hp3]
    | ok _ =>
      rcases hw2 : writeRegister _GLT_PIN_REG p st3 with ⟨r3, st4, t3⟩
      have hp4 : st4.pin = some p := by
        have h := writeRegister_pin _GLT_PIN_REG p st3
        rw [hw2] at h; simpa [hp3] using h
      simp [heartbeat, hw, hr, hw2, hp4]

end Coord

/-! ## Claims -/

/-- C10: `heartbeat(pin)` stores the new PIN before attempting the wire
write, so after any call — including one that fails and propagates — the
remembered PIN is the newly supplied one, and a subsequent reconnect
re-arm sends exactly that value. -/
theorem C10_heartbeat_updates_pin_before_write (st : Coord.St) (p : Int) :
    ((Coord.heartbeat (some p) st).2.1).pin = some p ∧
    (∀ rs tl, ((Coord.heartbeat (some p) st).2.1).sched = Resp.good rs :: tl →
      (Coord.reconnectAndReheart ((Coord.heartbeat (some p) st).2.1)).2.2 =
        [Ev.connectEv, Ev.writeEv _GLT_PIN_REG p, Ev.writeEv _GLT_PIN_REG p]) := by
  refine ⟨Coord.heartbeat_pin st p, ?_⟩
  intro rs tl hs
  rw [Coord.reconnect_good_pin2 _ p rs tl (Coord.heartbeat_pin st p) hs]

/-- Witness for C10 at a concrete state: PIN 7 is remembered and the next
reconnect re-arm writes it. -/
theorem C10_witness :
    ((Coord.heartbeat (some 7) ⟨true, none, [Resp.good [], Resp.good []]⟩).2.1).pin = some 7 ∧
    (Coord.reconnectAndReheart
        ((Coord.heartbeat (some 7) ⟨true, none, [Resp.good [], Resp.good []]⟩).2.1)).2.2 =
      [Ev.connectEv, Ev.writeEv _GLT_PIN_REG 7, Ev.writeEv _GLT_PIN_REG 7] :=
  ⟨(C10_heartbeat_updates_pin_before_write ⟨true, none, [Resp.good [], Resp.good []]⟩ 7).1,
   (C10_heartbeat_updates_pin_before_write ⟨true, none, [Resp.good [], Resp.good []]⟩ 7).2
     [] [] (by decide)⟩

/-- C4 counterexample: with a live connection and successful writes, two
back-to-back `heartbeat()` calls both hit the wire — two writes, not the
one write the throttle described by the claim would leave.  The
coordinator client has no throttle state at all. -/
theorem C4_counterexample :
    Coord.heartbeat (some 1111) ⟨true, none, [Resp.good [], Resp.good []]⟩ =
      (Except.ok (), ⟨true, some 1111, [Resp.good []]⟩,
       [Ev.writeEv _GLT_PIN_REG 1111]) ∧
    Coord.heartbeat none ⟨true, some 1111, [Resp.good []]⟩ =
      (Except.ok (), ⟨true, some 1111, []⟩, [Ev.writeEv _GLT_PIN_REG 1111]) ∧
    ([Ev.writeEv _GLT_PIN_REG 1111] ++ [Ev.writeEv _GLT_PIN_REG 1111]).length ≠ 1 :=
  ⟨rfl, rfl, by decide⟩

/-- C4 amended: `heartbeat()` has no throttling mode; with a live
connection and successful writes, every call performs exactly one wire
write, so two calls in any window perform exactly two. -/
theorem C4_heartbeat_never_throttles (st : Coord.St) (p : Int) (rs₁ rs₂ : List Nat)
    (tl : List Resp) (hc : st.client = true)
    (hs : st.sched = Resp.good rs₁ :: Resp.good rs₂ :: tl) :
    Coord.heartbeat (some p) st =
      (Except.ok (), ⟨true, some p, Resp.good rs₂ :: tl⟩,
       [Ev.writeEv _GLT_PIN_REG p]) ∧
    Coord.heartbeat none ⟨true, some p, Resp.good rs₂ :: tl⟩ =
      (Except.ok (), ⟨true, some p, tl⟩, [Ev.writeEv _GLT_PIN_REG p]) := by
  rcases st with ⟨c, pin, sch⟩
  simp only at hc hs
  subst hc; subst hs
  exact ⟨rfl, rfl⟩

/-- Witness for C4 amended at PIN 5 on a two-entry schedule. -/
theorem C4_witness :
    Coord.heartbeat (some 5) ⟨true, none, [Resp.good [], Resp.good []]⟩ =
      (Except.ok (), ⟨true, some 5, [Resp.good []]⟩, [Ev.writeEv _GLT_PIN_REG 5]) ∧
    Coord.heartbeat none ⟨true, some 5, [Resp.good []]⟩ =
      (Except.ok (), ⟨true, some 5, []⟩, [Ev.writeEv _GLT_PIN_REG 5]) :=
  C4_heartbeat_never_throttles ⟨true, none, [Resp.good [], Resp.good []]⟩ 5 [] [] []
    rfl rfl

/-- C2 counterexample: a read retry with PIN 1234 performs one reconnect,
and between the reconnect and the retried read the PIN write appears
twice (once from `_conn`, once more from `_reconnect_and_reheart`), not
exactly once as claimed. -/
theorem C2_counterexample :
    Coord.readKeys ["glt_version"]
        ⟨true, some 1234,
         [Resp.bad, Resp.good [], Resp.good [], Resp.good [], Resp.good [7]]⟩ =
      (Except.ok [("glt_version", ((7 : ℤ) : ℚ))], ⟨true, some 1234, []⟩,
       [Ev.readEv 8000 1, Ev.connectEv, Ev.writeEv _GLT_PIN_REG 1234,
        Ev.writeEv _GLT_PIN_REG 1234, Ev.sleepEv 50, Ev.readEv 8000 1,
        Ev.sleepEv 20]) ∧
    List.count (Ev.writeEv _GLT_PIN_REG 1234)
        [Ev.readEv 8000 1, Ev.connectEv, Ev.writeEv _GLT_PIN_REG 1234,
         Ev.writeEv _GLT_PIN_REG 1234, Ev.sleepEv 50, Ev.readEv 8000 1,
         Ev.sleepEv 20] = 2 :=
  ⟨rfl, by decide⟩

/-- C2 amended: on every retry step of `_read_keys` whose pass fails with
an `OSError`-family error under the attempt ceiling, and whose reconnect
succeeds, the client emits — after the failed pass and before anything of
the retried pass — exactly one connect followed by exactly two writes of
the remembered PIN, then the backoff sleep, and then the retried read
pass. -/
theorem C2_reconnect_resends_pin_twice (keys : List String) (fuel attempt : Nat)
    (st st1 : Coord.St) (t : List Ev) (e : Err) (p : Int) (rs : List Nat)
    (tl : List Resp)
    (hOnce : Coord.readKeysOnce keys st = (Except.error e, st1, t))
    (hio : isOSError e = true)
    (ha : attempt + 1 ≤ 3)
    (hp : st1.pin = some p)
    (hs : st1.sched = Resp.good rs :: tl) :
    Coord.readKeysGo keys (fuel + 1) attempt st =
      ((Coord.readKeysGo keys fuel (attempt + 1) ⟨true, some p, tl.drop 2⟩).1,
       (Coord.readKeysGo keys fuel (attempt + 1) ⟨true, some p, tl.drop 2⟩).2.1,
       t ++ [Ev.connectEv, Ev.writeEv _GLT_PIN_REG p, Ev.writeEv _GLT_PIN_REG p] ++
         Ev.sleepEv (50 * (attempt + 1) * (attempt + 1)) ::
           (Coord.readKeysGo keys fuel (attempt + 1) ⟨true, some p, tl.drop 2⟩).2.2) := by
  have hrec := Coord.reconnect_good_pin2 st1 p rs tl hp hs
  have hnot : ¬ (3 < attempt + 1) := by omega
  rcases hgo : Coord.readKeysGo keys fuel (attempt + 1) ⟨true, some p, tl.drop 2⟩
    with ⟨r3, st3, t3⟩
  simp [Coord.readKeysGo, hOnce, hio, hnot, hrec, hgo]

/-- Witness for C2 amended: the concrete retry of `glt_version` with
PIN 1234. -/
theorem C2_witness :
    Coord.readKeysGo ["glt_version"] 3 0
        ⟨true, some 1234,
         [Resp.bad, Resp.good [], Resp.good [], Resp.good [], Resp.good [7]]⟩ =
      ((Coord.readKeysGo ["glt_version"] 2 1 ⟨true, some 1234, [Resp.good [7]]⟩).1,
       (Coord.readKeysGo ["glt_version"] 2 1 ⟨true, some 1234, [Resp.good [7]]⟩).2.1,
       [Ev.readEv 8000 1] ++
         [Ev.connectEv, Ev.writeEv _GLT_PIN_REG 1234, Ev.writeEv _GLT_PIN_REG 1234] ++
         Ev.sleepEv 50 ::
           (Coord.readKeysGo ["glt_version"] 2 1
               ⟨true, some 1234, [Resp.good [7]]⟩).2.2) :=
  C2_reconnect_resends_pin_twice ["glt_version"] 2 0
    ⟨true, some 1234, [Resp.bad, Resp.good [], Resp.good [], Resp.good [], Resp.good [7]]⟩
    ⟨true, some 1234, [Resp.good [], Resp.good [], Resp.good [], Resp.good [7]]⟩
    [Ev.readEv 8000 1] Err.ioErr 1234 []
    [Resp.good [], Resp.good [], Resp.good [7]]
    rfl rfl (by omega) rfl rfl

/-- Evaluation of `read_keys` of the sensor-variant client on the empty
key list, by cases on the connection state and schedule. -/
theorem sens_readKeys_nil (sst : Sens.St) :
    Sens.readKeys [] sst =
      (if sst.client then (Except.ok [], sst, [])
       else
        match sst.sched with
        | [] => (Except.error Err.connErr, sst, [Ev.connectEv])
        | Resp.bad :: tl => (Except.error Err.connErr, ⟨false, tl⟩, [Ev.connectEv])
        | Resp.good _ :: tl => (Except.ok [], ⟨true, tl⟩, [Ev.connectEv])) := by
  rcases sst with ⟨c, sch⟩
  cases c with
  | true => rfl
  | false =>
    cases sch with
    | nil => rfl
    | cons r tl => cases r <;> rfl

/-- C9 counterexample: the block-merging client's `read_keys([])` does
establish a TCP connection (the claim says no connection is made). -/
theorem C9_counterexample :
    Sens.readKeys [] ⟨false, [Resp.good []]⟩ =
      (Except.ok [], ⟨true, []⟩, [Ev.connectEv]) ∧
    [Ev.connectEv] ≠ ([] : List Ev) :=
  ⟨rfl, by decide⟩

/-- C9 amended: `readKeys([])` returns an empty map and performs no
register reads or writes; the coordinator client performs no wire
operation at all (not even a connect), while the block-merging sensor
client first establishes a connection (its only wire event is at most one
connect, and its outcome is the empty map or a connect failure). -/
theorem C9_empty_read_no_wire_ops (st : Coord.St) (sst : Sens.St) :
    Coord.readKeys [] st = (Except.ok [], st, []) ∧
    ((Sens.readKeys [] sst).2.2.all (fun e => decide (e = Ev.connectEv)) = true) ∧
    ((Sens.readKeys [] sst).1 = Except.ok [] ∨
      (Sens.readKeys [] sst).1 = Except.error Err.connErr) := by
  refine ⟨rfl, ?_, ?_⟩ <;>
  · rw [sens_readKeys_nil]
    rcases sst with ⟨c, sch⟩
    cases c with
    | true => simp
    | false => cases sch with
      | nil => simp
      | cons r tl => cases r <;> simp

/-- C1 (code bug in `_group_blocks`): for the eight catalog keys spanning
addresses 8013–8020 — with 8015 (`request_type_enum`) and 8017
(`last_shutdown_reason_enum`) in the no-merge set (8016's intended entry
`runtime_since_last_start_h` does not even match a catalog key) — the
planner returns the single merged range (8013, 8020): the merge walk never
consults the no-merge set, so no-merge addresses are merged with their
neighbours and fewer than 3 ranges result, contradicting the function's
own docstring ("force single reads for NO_MERGE_KEYS"). -/
theorem C1_no_merge_not_enforced :
    _group_blocks readRegs noMergeReal statusKeys = some [(8013, 8020)] ∧
    ¬ 3 ≤ ([(8013, 8020)] : List (Nat × Nat)).length :=
  ⟨by decide, by decide⟩

/-- C7 counterexample: for the token `FIX1A2` the claim's rule (only the
leading digit run counts, so `n = 1` and 10 scales to 1) disagrees with
the code, which joins **all** digit characters of the suffix
(`digits = "12"`), scaling 10 by `10^12`. -/
theorem C7_counterexample :
    _scale 10 ("FIX1A2") = 10 / 10 ^ 12 ∧ (10 : ℚ) / 10 ^ 12 ≠ 10 / 10 ^ 1 := by
  constructor
  · simp only [_scale]
    rw [show normFmt ("FIX1A2") = ['F', 'I', 'X', '1', 'A', '2'] from by decide]
    rw [if_pos (by decide)]
    norm_num +decide [show ((['F', 'I', 'X', '1', 'A', '2'].drop 3).filter Char.isDigit)
        = ['1', '2'] from by decide, show digitsVal ['1', '2'] = 12 from by decide]
  · norm_num

/-- C7 amended: a `FIX` token divides by `10^n` where `n` is the number
formed by **all** digit characters appearing after the prefix (non-digit
characters are skipped but do not stop the scan): `FIX1` and `FIX1` with a
non-digit suffix scale by 10, `FIX1A2` scales by `10^12`, `FIX` alone by
`10^0`; `TEMP` divides by 10 (the one-decimal rounding is exact on integer
inputs); `ENUM`, `RAW` and `DT` pass the integer through unchanged. -/
theorem C7_scale_format_rules (v : ℤ) :
    _scale v ("FIX1") = (v : ℚ) / 10 ∧
    _scale v ("FIX1xyz") = (v : ℚ) / 10 ∧
    _scale v ("FIX1A2") = (v : ℚ) / 10 ^ 12 ∧
    _scale v ("FIX") = (v : ℚ) ∧
    _scale v ("TEMP") = (v : ℚ) / 10 ∧
    _scale v ("ENUM") = (v : ℚ) ∧
    _scale v ("RAW") = (v : ℚ) ∧
    _scale v ("DT") = (v : ℚ) := by
  refine ⟨?_, ?_, ?_, ?_, ?_, ?_, ?_, ?_⟩
  · simp only [_scale]
    rw [show normFmt ("FIX1") = ['F', 'I', 'X', '1'] from by decide]
    rw [if_pos (by decide)]
    norm_num +decide [show ((['F', 'I', 'X', '1'].drop 3).filter Char.isDigit)
        = ['1'] from by decide, show digitsVal ['1'] = 1 from by decide]
  · simp only [_scale]
    rw [show normFmt ("FIX1xyz") = ['F', 'I', 'X', '1', 'X', 'Y', 'Z'] from by decide]
    rw [if_pos (by decide)]
    norm_num +decide [show ((['F', 'I', 'X', '1', 'X', 'Y', 'Z'].drop 3).filter
        Char.isDigit) = ['1'] from by decide, show digitsVal ['1'] = 1 from by decide]
  · simp only [_scale]
    rw [show normFmt ("FIX1A2") = ['F', 'I', 'X', '1', 'A', '2'] from by decide]
    rw [if_pos (by decide)]
    norm_num +decide [show ((['F', 'I', 'X', '1', 'A', '2'].drop 3).filter Char.isDigit)
        = ['1', '2'] from by decide, show digitsVal ['1', '2'] = 12 from by decide]
  · simp only [_scale]
    rw [show normFmt ("FIX") = ['F', 'I', 'X'] from by decide]
    rw [if_pos (by decide)]
    norm_num +decide
  · simp only [_scale]
    rw [show normFmt ("TEMP") = ['T', 'E', 'M', 'P'] from by decide]
    rw [if_neg (by decide), if_pos (by decide)]
    rw [show ((v : ℚ) / 10 * 10) = (v : ℚ) from by field_simp, round_intCast]
  · simp only [_scale]
    rw [show normFmt ("ENUM") = ['E', 'N', 'U', 'M'] from by decide]
    rw [if_neg (by decide), if_neg (by decide)]
  · simp only [_scale]
    rw [show normFmt ("RAW") = ['R', 'A', 'W'] from by decide]
    rw [if_neg (by decide), if_neg (by decide)]
  · simp only [_scale]
    rw [show normFmt ("DT") = ['D', 'T'] from by decide]
    rw [if_neg (by decide), if_neg (by decide)]

/-! Helper lemmas about `_combine`'s byte-level fold. -/

theorem foldl256_base (b : List Nat) (a : Nat) :
    b.foldl (fun a x => 256 * a + x) a =
      a * 256 ^ b.length + b.foldl (fun a x => 256 * a + x) 0 := by
  induction b generalizing a with
  | nil => simp
  | cons x xs ih =>
    rw [List.foldl_cons, List.foldl_cons, ih (256 * a + x), ih (256 * 0 + x)]
    simp only [List.length_cons, pow_succ]
    ring

theorem foldl256_lt (b : List Nat) (h : ∀ x ∈ b, x < 256) :
    b.foldl (fun a x => 256 * a + x) 0 < 256 ^ b.length := by
  induction b with
  | nil => simp
  | cons x xs ih =>
    rw [List.foldl_cons, foldl256_base xs (256 * 0 + x)]
    have hx : x < 256 := h x (by simp)
    have hxs : xs.foldl (fun a x => 256 * a + x) 0 < 256 ^ xs.length :=
      ih (fun y hy => h y (by simp [hy]))
    simp only [List.length_cons, pow_succ]
    have hp : 0 < (256 : ℕ) ^ xs.length := pow_pos (by norm_num) _
    nlinarith

theorem bytes_lt (regs : List Nat) :
    ∀ x ∈ regs.flatMap (fun r => [r / 256 % 256, r % 256]), x < 256 := by
  intro x hx
  simp only [List.mem_flatMap, List.mem_cons, List.not_mem_nil, or_false,
    List.mem_singleton] at hx
  rcases hx with ⟨r, _, h | h⟩ <;> omega

theorem bytes_len (regs : List Nat) :
    (regs.flatMap (fun r => [r / 256 % 256, r % 256])).length = 2 * regs.length := by
  induction regs with
  | nil => simp
  | cons r rs ih => simp [List.flatMap_cons, ih]; omega

theorem bytes_foldl (regs : List Nat) (a : Nat) (h : ∀ r ∈ regs, r < 65536) :
    (regs.flatMap (fun r => [r / 256 % 256, r % 256])).foldl
        (fun a x => 256 * a + x) a =
      regs.foldl (fun a r => 65536 * a + r) a := by
  induction regs generalizing a with
  | nil => simp
  | cons r rs ih =>
    have hr : r < 65536 := h r (by simp)
    rw [List.flatMap_cons, List.foldl_append]
    simp only [List.foldl_cons, List.foldl_nil]
    rw [ih _ (fun y hy => h y (by simp [hy]))]
    have harith : 256 * (256 * a + r / 256 % 256) + r % 256 = 65536 * a + r := by omega
    rw [harith]

theorem combine_msb_iff (r : Nat) (rs : List Nat) (h : ∀ x ∈ r :: rs, x < 65536) :
    (128 ≤ ((r :: rs).flatMap (fun r => [r / 256 % 256, r % 256])).headD 0 ↔
      2 ^ (16 * (r :: rs).length - 1) ≤
        ((r :: rs).flatMap (fun r => [r / 256 % 256, r % 256])).foldl
          (fun a x => 256 * a + x) 0) := by
  have hr : r < 65536 := h r (by simp)
  rw [List.flatMap_cons]
  simp only [List.cons_append, List.nil_append, List.headD_cons, List.foldl_cons]
  have hB : ∀ x ∈ rs.flatMap (fun r => [r / 256 % 256, r % 256]), x < 256 := bytes_lt rs
  have hBlen : (rs.flatMap (fun r => [r / 256 % 256, r % 256])).length = 2 * rs.length :=
    bytes_len rs
  have hinit : 256 * (256 * 0 + r / 256 % 256) + r % 256 = r := by omega
  rw [hinit, foldl256_base (rs.flatMap (fun r => [r / 256 % 256, r % 256])) r, hBlen]
  have hw := foldl256_lt (rs.flatMap (fun r => [r / 256 % 256, r % 256])) hB
  rw [hBlen] at hw
  have hhi : r / 256 % 256 = r / 256 := by omega
  rw [hhi]
  have hpow : 2 ^ (16 * (r :: rs).length - 1) = 32768 * 256 ^ (2 * rs.length) := by
    rw [List.length_cons]
    rw [show (256 : ℕ) = 2 ^ 8 from by norm_num, ← pow_mul,
      show (32768 : ℕ) = 2 ^ 15 from by norm_num, ← pow_add]
    congr 1
    omega
  rw [hpow]
  constructor
  · intro hge
    have h1 : 32768 ≤ r := by omega
    have h2 : 32768 * 256 ^ (2 * rs.length) ≤ r * 256 ^ (2 * rs.length) :=
      Nat.mul_le_mul_right _ h1
    omega
  · intro hge
    by_contra hlt
    push_neg at hlt
    have h1 : r ≤ 32767 := by omega
    have h2 : r * 256 ^ (2 * rs.length) ≤ 32767 * 256 ^ (2 * rs.length) :=
      Nat.mul_le_mul_right _ h1
    omega

theorem combine_false_eq (regs : List Nat) :
    _combine regs false =
      (((regs.flatMap (fun r => [r / 256 % 256, r % 256])).foldl
        (fun a x => 256 * a + x) 0 : ℕ) : ℤ) := by
  simp [_combine]

theorem combine_true_eq (regs : List Nat) :
    _combine regs true =
      (if 128 ≤ (regs.flatMap (fun r => [r / 256 % 256, r % 256])).headD 0 then
        (((regs.flatMap (fun r => [r / 256 % 256, r % 256])).foldl
          (fun a x => 256 * a + x) 0 : ℕ) : ℤ) -
          2 ^ (8 * (regs.flatMap (fun r => [r / 256 % 256, r % 256])).length)
      else
        (((regs.flatMap (fun r => [r / 256 % 256, r % 256])).foldl
          (fun a x => 256 * a + x) 0 : ℕ) : ℤ)) := by
  simp [_combine]

set_option maxHeartbeats 2000000 in
/-- C6: `_combine` concatenates the raw words most-significant-word-first
into an unsigned integer of `16 * wordCount` bits (the word-level
big-endian fold, bounded by `2 ^ (16 n)`), and the signed decode is its
two's-complement reinterpretation over that exact bit width (congruent
modulo `2 ^ (16 n)` and lying in `[-2^(16n-1), 2^(16n-1))`); in
particular `[0x0001, 0x0002]` decodes unsigned to `0x00010002` and
`[0xFFFF, 0xFFFE]` decodes signed to `-2`. -/
theorem C6_combine_is_big_endian_twos_complement :
    (∀ regs : List Nat, regs ≠ [] → (∀ r ∈ regs, r < 65536) →
      _combine regs false = ((regs.foldl (fun a r => 65536 * a + r) 0 : ℕ) : ℤ) ∧
      0 ≤ _combine regs false ∧
      _combine regs false < 2 ^ (16 * regs.length) ∧
      _combine regs true % 2 ^ (16 * regs.length) =
        _combine regs false % 2 ^ (16 * regs.length) ∧
      -(2 ^ (16 * regs.length - 1)) ≤ _combine regs true ∧
      _combine regs true < 2 ^ (16 * regs.length - 1)) ∧
    _combine [1, 2] false = 65538 ∧
    _combine [65535, 65534] true = -2 := by
  refine ⟨?_, rfl, rfl⟩
  intro regs hne h
  obtain ⟨r, rs, rfl⟩ : ∃ r rs, regs = r :: rs := by
    cases regs with
    | nil => exact absurd rfl hne
    | cons r rs => exact ⟨r, rs, rfl⟩
  have hBlt : ∀ x ∈ (r :: rs).flatMap (fun r => [r / 256 % 256, r % 256]), x < 256 :=
    bytes_lt _
  have hBlen : ((r :: rs).flatMap (fun r => [r / 256 % 256, r % 256])).length =
      2 * (r :: rs).length := bytes_len _
  have hUlt := foldl256_lt _ hBlt
  rw [hBlen] at hUlt
  have hpow : (256 : ℕ) ^ (2 * (r :: rs).length) = 2 ^ (16 * (r :: rs).length) := by
    rw [show (256 : ℕ) = 2 ^ 8 from by norm_num, ← pow_mul]
    congr 1
    ring
  rw [hpow] at hUlt
  have hUword := bytes_foldl (r :: rs) 0 h
  have hfalse := combine_false_eq (r :: rs)
  have htrue := combine_true_eq (r :: rs)
  have hlen1 : 1 ≤ (r :: rs).length := by simp
  have hNH : (2 : ℤ) ^ (16 * (r :: rs).length) =
      2 * 2 ^ (16 * (r :: rs).length - 1) := by
    have h1 : 16 * (r :: rs).length - 1 + 1 = 16 * (r :: rs).length := by omega
    calc (2 : ℤ) ^ (16 * (r :: rs).length)
        = 2 ^ (16 * (r :: rs).length - 1 + 1) := by rw [h1]
      _ = 2 ^ (16 * (r :: rs).length - 1) * 2 := pow_succ _ _
      _ = 2 * 2 ^ (16 * (r :: rs).length - 1) := by ring
  have hcastpow : ((2 ^ (16 * (r :: rs).length) : ℕ) : ℤ) =
      2 ^ (16 * (r :: rs).length) := by push_cast; ring
  have hcastpow1 : ((2 ^ (16 * (r :: rs).length - 1) : ℕ) : ℤ) =
      2 ^ (16 * (r :: rs).length - 1) := by push_cast; ring
  have hUcast : ((((r :: rs).flatMap (fun r => [r / 256 % 256, r % 256])).foldl
      (fun a x => 256 * a + x) 0 : ℕ) : ℤ) < 2 ^ (16 * (r :: rs).length) := by
    rw [← hcastpow]
    exact Int.ofNat_lt.mpr hUlt
  have hUpos : (0 : ℤ) ≤ (((r :: rs).flatMap (fun r => [r / 256 % 256, r % 256])).foldl
      (fun a x => 256 * a + x) 0 : ℕ) := Int.natCast_nonneg _
  have hHpos : (0 : ℤ) < 2 ^ (16 * (r :: rs).length - 1) := by positivity
  refine ⟨?_, ?_, ?_, ?_, ?_, ?_⟩
  · rw [hfalse, hUword]
  · rw [hfalse]; exact hUpos
  · rw [hfalse]; exact hUcast
  · by_cases hmsb : 128 ≤ ((r :: rs).flatMap (fun r => [r / 256 % 256, r % 256])).headD 0
    · rw [htrue, if_pos hmsb, hfalse, hBlen,
        show 8 * (2 * (r :: rs).length) = 16 * (r :: rs).length from by ring]
      exact Int.emod_sub_cancel _ _
    · rw [htrue, if_neg hmsb, hfalse]
  · by_cases hmsb : 128 ≤ ((r :: rs).flatMap (fun r => [r / 256 % 256, r % 256])).headD 0
    · rw [htrue, if_pos hmsb, hBlen,
        show 8 * (2 * (r :: rs).length) = 16 * (r :: rs).length from by ring]
      have hge := (combine_msb_iff r rs h).mp hmsb
      have hgecast : ((2 : ℤ) ^ (16 * (r :: rs).length - 1)) ≤
          (((r :: rs).flatMap (fun r => [r / 256 % 256, r % 256])).foldl
            (fun a x => 256 * a + x) 0 : ℕ) := by
        rw [← hcastpow1]
        exact Int.ofNat_le.mpr hge
      linarith
    · rw [htrue, if_neg hmsb]
      linarith
  · by_cases hmsb : 128 ≤ ((r :: rs).flatMap (fun r => [r / 256 % 256, r % 256])).headD 0
    · rw [htrue, if_pos hmsb, hBlen,
        show 8 * (2 * (r :: rs).length) = 16 * (r :: rs).length from by ring]
      linarith
    · rw [htrue, if_neg hmsb]
      have hlt := (combine_msb_iff r rs h).not.mp hmsb
      push_neg at hlt
      have hltcast : ((((r :: rs).flatMap (fun r => [r / 256 % 256, r % 256])).foldl
          (fun a x => 256 * a + x) 0 : ℕ) : ℤ) <
          2 ^ (16 * (r :: rs).length - 1) := by
        rw [← hcastpow1]
        exact Int.ofNat_lt.mpr hlt
      exact hltcast

/-- Witness for C6 at `[0x0001, 0x0002]`. -/
theorem C6_witness :
    (([1, 2] : List Nat) ≠ [] ∧ ∀ r ∈ ([1, 2] : List Nat), r < 65536) ∧
    _combine [1, 2] false = (([1, 2].foldl (fun a r => 65536 * a + r) 0 : ℕ) : ℤ) ∧
    0 ≤ _combine [1, 2] false ∧
    _combine [1, 2] false < 2 ^ (16 * ([1, 2] : List Nat).length) ∧
    _combine [1, 2] true % 2 ^ (16 * ([1, 2] : List Nat).length) =
      _combine [1, 2] false % 2 ^ (16 * ([1, 2] : List Nat).length) ∧
    -(2 ^ (16 * ([1, 2] : List Nat).length - 1)) ≤ _combine [1, 2] true ∧
    _combine [1, 2] true < 2 ^ (16 * ([1, 2] : List Nat).length - 1) :=
  ⟨⟨by decide, by decide⟩,
   C6_combine_is_big_endian_twos_complement.1 [1, 2] (by decide) (by decide)⟩

/-! Helper lemmas for the retry/backoff loop (claim C3). -/

theorem retrySleeps_append (t1 t2 : List Ev) :
    retrySleeps (t1 ++ t2) = retrySleeps t1 ++ retrySleeps t2 := by
  simp [retrySleeps]

theorem retrySleeps_once (keys : List String) :
    ∀ st : Coord.St, retrySleeps ((Coord.readKeysOnce keys st).2.2) = [] := by
  induction keys with
  | nil => intro st; rfl
  | cons k ks ih =>
    intro st
    rcases st with ⟨c, p, sch⟩
    cases hk : readRegs k with
    | none => simp [Coord.readKeysOnce, hk, retrySleeps]
    | some spec =>
      cases sch with
      | nil => simp [Coord.readKeysOnce, hk, Coord.fc4Read, Coord.take1, retrySleeps]
      | cons r tl =>
        cases r with
        | bad => simp [Coord.readKeysOnce, hk, Coord.fc4Read, Coord.take1, retrySleeps]
        | good rs =>
          rcases hrec : Coord.readKeysOnce ks ⟨c, p, tl⟩ with ⟨r2, st2, t2⟩
          have h2 := ih ⟨c, p, tl⟩
          rw [hrec] at h2
          simp only [retrySleeps] at h2
          cases r2 <;>
            simp [Coord.readKeysOnce, hk, Coord.fc4Read, Coord.take1, hrec,
              retrySleeps, h2]

theorem retrySleeps_reconnect (st : Coord.St) :
    retrySleeps ((Coord.reconnectAndReheart st).2.2) = [] := by
  rcases st with ⟨c, p, sch⟩
  cases sch with
  | nil => cases p <;> rfl
  | cons r tl =>
    cases r with
    | bad => cases p <;> rfl
    | good rs =>
      cases p with
      | none => rfl
      | some q =>
        cases tl with
        | nil => rfl
        | cons r2 tl2 =>
          cases r2 <;>
            (cases tl2 with
             | nil => rfl
             | cons r3 tl3 => cases r3 <;> rfl)

theorem retrySleeps_conn (st : Coord.St) :
    retrySleeps ((Coord.conn st).2.2) = [] := by
  rcases st with ⟨c, p, sch⟩
  cases c with
  | true => rfl
  | false =>
    cases sch with
    | nil => cases p <;> rfl
    | cons r tl =>
      cases r with
      | bad => cases p <;> rfl
      | good rs =>
        cases p with
        | none => rfl
        | some q =>
          cases tl with
          | nil => rfl
          | cons r2 tl2 => cases r2 <;> rfl

theorem readKeysGo_retrySleeps (keys : List String) :
    ∀ (n attempt : Nat), ∀ st : Coord.St, attempt + n = 3 →
      retrySleeps ((Coord.readKeysGo keys n attempt st).2.2) <+:
        (List.range' (attempt + 1) n).map (fun a => 50 * a * a) := by
  intro n
  induction n with
  | zero =>
    intro attempt st h
    have ha : attempt = 3 := by omega
    subst ha
    rcases ho : Coord.readKeysOnce keys st with ⟨r, st1, t⟩
    have h0 := retrySleeps_once keys st
    rw [ho] at h0
    cases r with
    | ok m => simp [Coord.readKeysGo, ho, h0]
    | error e =>
      by_cases hio : isOSError e = true
      · simp [Coord.readKeysGo, ho, hio, h0]
      · simp [Coord.readKeysGo, ho, hio, h0]
  | succ n ih =>
    intro attempt st h
    rcases ho : Coord.readKeysOnce keys st with ⟨r, st1, t⟩
    have h0 := retrySleeps_once keys st
    rw [ho] at h0
    cases r with
    | ok m => simp [Coord.readKeysGo, ho, h0]
    | error e =>
      by_cases hio : isOSError e = true
      · have hnot : ¬ ((3 : ℕ) < attempt + 1) := by omega
        rcases hrc : Coord.reconnectAndReheart st1 with ⟨r2, st2, t2⟩
        have h2 := retrySleeps_reconnect st1
        rw [hrc] at h2
        cases r2 with
        | error e2 =>
          simp [Coord.readKeysGo, ho, hio, hnot, hrc, retrySleeps_append, h0, h2]
        | ok _ =>
          rcases hgo : Coord.readKeysGo keys n (attempt + 1) st2 with ⟨r3, st3, t3⟩
          have h3 := ih (attempt + 1) st2 (by omega)
          rw [hgo] at h3
          have hne : 50 * (attempt + 1) * (attempt + 1) ≠ 20 := by nlinarith
          have h0f := h0
          have h2f := h2
          simp only [retrySleeps] at h0f h2f
          have hstep : retrySleeps ((Coord.readKeysGo keys (n + 1) attempt st).2.2) =
              50 * (attempt + 1) * (attempt + 1) :: retrySleeps t3 := by
            simp [Coord.readKeysGo, ho, hio, hnot, hrc, hgo, retrySleeps_append, h0f, h2f,
              retrySleeps, hne]
          rw [hstep, List.range'_succ (attempt + 1) n 1, List.map_cons]
          exact List.cons_prefix_cons.mpr ⟨rfl, h3⟩
      · simp [Coord.readKeysGo, ho, hio, h0]

/-- C3: `_read_keys` retries the whole pass after a transient socket
error with reconnects, an attempt ceiling of `_RETRY_ATTEMPTS = 3`
retries, and backoff sleeps of exactly `base * attempt²`
(50 ms · a², a = 1, 2, 3) between passes: in every execution the
sequence of backoff sleeps is a prefix of `[50, 200, 450]`, and in the
all-failures execution the client performs four passes, three
reconnect/backoff rounds, and propagates the last `IOError` unmodified. -/
theorem C3_retry_ceiling_and_quadratic_backoff :
    (∀ (keys : List String) (st : Coord.St),
      retrySleeps ((Coord.readKeys keys st).2.2) <+: [50, 200, 450]) ∧
    Coord.readKeys ["glt_version"]
        ⟨true, none, [Resp.bad, Resp.good [], Resp.bad, Resp.good [], Resp.bad,
          Resp.good [], Resp.bad]⟩ =
      (Except.error Err.ioErr, ⟨true, none, []⟩,
       [Ev.readEv 8000 1, Ev.connectEv, Ev.sleepEv 50,
        Ev.readEv 8000 1, Ev.connectEv, Ev.sleepEv 200,
        Ev.readEv 8000 1, Ev.connectEv, Ev.sleepEv 450,
        Ev.readEv 8000 1]) := by
  constructor
  · intro keys st
    by_cases hk : keys = []
    · subst hk
      simpa [Coord.readKeys, retrySleeps] using List.nil_prefix
    · rcases hc : Coord.conn st with ⟨r, st1, t⟩
      have h1 := retrySleeps_conn st
      rw [hc] at h1
      cases r with
      | error e =>
        have h1f := h1
        simp only [retrySleeps] at h1f
        simpa [Coord.readKeys, hk, hc, retrySleeps, h1f] using List.nil_prefix
      | ok _ =>
        rcases hgo : Coord.readKeysGo keys 3 0 st1 with ⟨r2, st2, t2⟩
        have h2 := readKeysGo_retrySleeps keys 3 0 st1 rfl
        rw [hgo] at h2
        have hplan : (List.range' (0 + 1) 3).map (fun a => 50 * a * a) =
            [50, 200, 450] := by decide
        rw [hplan] at h2
        have h1f := h1
        simp only [retrySleeps] at h1f
        have hstep : retrySleeps ((Coord.readKeys keys st).2.2) = retrySleeps t2 := by
          simp [Coord.readKeys, hk, hc, hgo, retrySleeps_append, h1f, retrySleeps]
        rw [hstep]
        exact h2
  · rfl

theorem decodeKeys_map_fst (cache : List (Nat × List Nat)) :
    ∀ (keys : List String) (m : List (String × Option ℚ)),
      Sens.decodeKeys cache keys = Except.ok m → m.map Prod.fst = keys := by
  intro keys
  induction keys with
  | nil =>
    intro m hm
    cases hm
    rfl
  | cons k ks ih =>
    intro m hm
    cases hk : readRegs k with
    | none => simp [Sens.decodeKeys, hk] at hm
    | some spec =>
      rcases hrec : Sens.decodeKeys cache ks with r | m'
      · cases hs : Sens._slice cache spec.ref spec.cnt <;>
          simp [Sens.decodeKeys, hk, hs, hrec, Except.map] at hm
      · cases hs : Sens._slice cache spec.ref spec.cnt <;>
        · simp [Sens.decodeKeys, hk, hs, hrec, Except.map] at hm
          subst hm
          simp [ih m' hrec]

/-- C8: whenever the block-merging `read_keys` returns a map, the map has
an entry for every requested key, in order — a key whose register words
could not be sliced out of the fetched cache maps to `none` instead of
being omitted or aborting the remaining keys; in the concrete run the
device returns a short block for `op_hours_total_h`, which decodes to
`none` while `plant_status_enum` still decodes to its value. -/
theorem C8_null_per_key_not_omitted :
    (∀ (keys : List String) (st : Sens.St) (m : List (String × Option ℚ))
        (st' : Sens.St) (t : List Ev),
      Sens.readKeys keys st = (Except.ok m, st', t) → m.map Prod.fst = keys) ∧
    Sens.readKeys ["plant_status_enum", "op_hours_total_h"]
        ⟨false, [Resp.good [], Resp.good [2], Resp.good [1]]⟩ =
      (Except.ok [("plant_status_enum", some ((2 : ℤ) : ℚ)),
        ("op_hours_total_h", none)],
       ⟨true, []⟩,
       [Ev.connectEv, Ev.readEv 8013 1, Ev.sleepEv 20, Ev.readEv 8027 2,
        Ev.sleepEv 20]) := by
  constructor
  · intro keys st m st' t h
    rcases hc : Sens.conn st with ⟨rc, st1, t1⟩
    cases rc with
    | error e => simp [Sens.readKeys, hc] at h
    | ok _ =>
      cases hg : _group_blocks readRegs noMergeReal keys with
      | none => simp [Sens.readKeys, hc, hg] at h
      | some blocks =>
        rcases hb : Sens.readBlocks blocks st1 with ⟨rb, st2, t2⟩
        cases rb with
        | error e => simp [Sens.readKeys, hc, hg, hb] at h
        | ok cache =>
          cases hd : Sens.decodeKeys cache keys with
          | error e => simp [Sens.readKeys, hc, hg, hb, hd] at h
          | ok out =>
            have hout : out = m := by
              simp [Sens.readKeys, hc, hg, hb, hd] at h
              exact h.1
            subst hout
            exact decodeKeys_map_fst cache keys out hd
  · rfl

/-- Witness for C8's general conjunct at the concrete short-read run. -/
theorem C8_witness :
    ([("plant_status_enum", some ((2 : ℤ) : ℚ)),
      ("op_hours_total_h", (none : Option ℚ))].map Prod.fst =
      ["plant_status_enum", "op_hours_total_h"]) :=
  C8_null_per_key_not_omitted.1 ["plant_status_enum", "op_hours_total_h"]
    ⟨false, [Resp.good [], Resp.good [2], Resp.good [1]]⟩
    [("plant_status_enum", some ((2 : ℤ) : ℚ)), ("op_hours_total_h", none)]
    ⟨true, []⟩
    [Ev.connectEv, Ev.readEv 8013 1, Ev.sleepEv 20, Ev.readEv 8027 2, Ev.sleepEv 20]
    rfl

/-! Helper lemmas for the block planner (claims C5 and C1). -/

theorem lookup_mem {α β : Type} [BEq α] [LawfulBEq α] (k : α) (v : β) :
    ∀ l : List (α × β), List.lookup k l = some v → (k, v) ∈ l := by
  intro l
  induction l with
  | nil => intro h; cases h
  | cons p rest ih =>
    rcases p with ⟨a, b⟩
    intro h
    by_cases hk : (k == a) = true
    · simp only [List.lookup, hk] at h
      cases h
      have : k = a := by simpa using hk
      subst this
      exact List.mem_cons_self _ _
    · simp only [List.lookup, Bool.not_eq_true] at h hk
      rw [hk] at h
      exact List.mem_cons_of_mem _ (ih h)

theorem sortSpans_perm (l : List (Nat × Nat)) : List.Perm (sortSpans l) l :=
  List.mergeSort_perm l _

theorem sortSpans_sorted (l : List (Nat × Nat)) :
    (sortSpans l).Pairwise (fun a b => a.1 ≤ b.1) := by
  have h := @List.sorted_mergeSort (Nat × Nat)
    (fun a b => decide (a.1 ≤ b.1))
    (fun a b c h1 h2 => by simp_all; omega)
    (fun a b => by simp; omega) l
  exact h.imp (fun h => by simpa using h)

theorem strict_of_sorted_disjoint (l : List (Nat × Nat))
    (hwf : ∀ p ∈ l, p.1 ≤ p.2)
    (hs : l.Pairwise (fun a b => a.1 ≤ b.1))
    (hd : l.Pairwise spanDisjoint) :
    l.Pairwise (fun p q => p.2 < q.1) := by
  refine (hs.and hd).imp_of_mem ?_
  intro a b ha hb hab
  rcases hab with ⟨hle, hdj | hdj⟩
  · exact hdj
  · have h1 := hwf a ha
    have h2 := hwf b hb
    omega

theorem mem_blockAddrs (a : Nat) :
    ∀ l : List (Nat × Nat), a ∈ blockAddrs l ↔ ∃ p ∈ l, p.1 ≤ a ∧ a ≤ p.2 := by
  intro l
  induction l with
  | nil => simp [blockAddrs]
  | cons p rest ih =>
    rcases p with ⟨s, e⟩
    simp only [blockAddrs, List.flatMap_cons, List.mem_append] at *
    constructor
    · intro h
      rcases h with h | h
      · have := List.mem_range'_1.mp h
        exact ⟨(s, e), by simp, by omega, by omega⟩
      · obtain ⟨q, hq, h1, h2⟩ := ih.mp h
        exact ⟨q, by simp [hq], h1, h2⟩
    · rintro ⟨q, hq, h1, h2⟩
      rcases List.mem_cons.mp hq with rfl | hq
      · exact Or.inl (List.mem_range'_1.mpr (by omega))
      · exact Or.inr (ih.mpr ⟨q, hq, h1, h2⟩)

theorem blockAddrs_nodup (l : List (Nat × Nat)) (hd : l.Pairwise spanDisjoint) :
    (blockAddrs l).Nodup := by
  induction l with
  | nil => simp [blockAddrs]
  | cons p rest ih =>
    rcases p with ⟨s, e⟩
    have hhead := (List.pairwise_cons.mp hd).1
    have htail := (List.pairwise_cons.mp hd).2
    simp only [blockAddrs, List.flatMap_cons]
    refine List.Nodup.append (List.nodup_range' _ _) (ih htail) ?_
    intro a ha hb
    have h1 := List.mem_range'_1.mp ha
    obtain ⟨q, hq, h2, h3⟩ := (mem_blockAddrs a rest).mp hb
    have := hhead q hq
    rcases this with h | h <;> omega

theorem range'_append_nat (s m n : Nat) :
    List.range' s m ++ List.range' (s + m) n = List.range' s (m + n) := by
  have := List.range'_append s m n 1
  simpa [Nat.add_comm] using this

theorem blockAddrs_cons (p : Nat × Nat) (rest : List (Nat × Nat)) :
    blockAddrs (p :: rest) = List.range' p.1 (p.2 + 1 - p.1) ++ blockAddrs rest := by
  simp [blockAddrs]

theorem mergeLoop_spec :
    ∀ (rest : List (Nat × Nat)) (curS curE : Nat),
      curS ≤ curE →
      (∀ p ∈ rest, p.1 ≤ p.2) →
      rest.Pairwise (fun p q => p.2 < q.1) →
      (∀ p ∈ rest, curE < p.1) →
      blockAddrs (mergeLoop curS curE rest) =
        List.range' curS (curE + 1 - curS) ++ blockAddrs rest ∧
      (∀ r ∈ mergeLoop curS curE rest, curS ≤ r.1 ∧ r.1 ≤ r.2) ∧
      (mergeLoop curS curE rest).Pairwise (fun r r' => r.2 + 1 < r'.1) := by
  intro rest
  induction rest with
  | nil =>
    intro curS curE h1 _ _ _
    refine ⟨by simp [mergeLoop, blockAddrs], ?_, by simp [mergeLoop]⟩
    intro r hr
    simp only [mergeLoop, List.mem_singleton] at hr
    subst hr
    exact ⟨le_refl _, h1⟩
  | cons p rest ih =>
    rcases p with ⟨s, e⟩
    intro curS curE hse hwf hpw hgt
    have hs_wf : s ≤ e := hwf (s, e) (by simp)
    have hcurE_s : curE < s := hgt (s, e) (by simp)
    have hwf' : ∀ q ∈ rest, q.1 ≤ q.2 := fun q hq => hwf q (by simp [hq])
    have hpw' : rest.Pairwise (fun p q => p.2 < q.1) := (List.pairwise_cons.mp hpw).2
    have hgt' : ∀ q ∈ rest, e < q.1 := (List.pairwise_cons.mp hpw).1
    by_cases hmerge : s = curE + 1
    · obtain ⟨ha, hm, hp⟩ := ih curS e (by omega) hwf' hpw' hgt'
      refine ⟨?_, ?_, ?_⟩
      · simp only [mergeLoop, if_pos hmerge]
        rw [ha, blockAddrs_cons, ← List.append_assoc]
        congr 1
        have hr := range'_append_nat curS (curE + 1 - curS) (e + 1 - s)
        rw [show curS + (curE + 1 - curS) = s from by omega] at hr
        show List.range' curS (e + 1 - curS) =
          List.range' curS (curE + 1 - curS) ++ List.range' s (e + 1 - s)
        rw [hr]
        congr 1
        omega
      · intro r hr
        simp only [mergeLoop, if_pos hmerge] at hr
        exact hm r hr
      · simp only [mergeLoop, if_pos hmerge]
        exact hp
    · obtain ⟨ha, hm, hp⟩ := ih s e hs_wf hwf' hpw' hgt'
      refine ⟨?_, ?_, ?_⟩
      · simp only [mergeLoop, if_neg hmerge]
        rw [blockAddrs_cons, ha, blockAddrs_cons]
      · intro r hr
        simp only [mergeLoop, if_neg hmerge] at hr
        rcases List.mem_cons.mp hr with rfl | hr
        · exact ⟨le_refl _, hse⟩
        · have h := hm r hr
          exact ⟨by omega, h.2⟩
      · simp only [mergeLoop, if_neg hmerge]
        refine List.pairwise_cons.mpr ⟨?_, hp⟩
        intro r hr
        have h := hm r hr
        have : curE + 1 < s := by omega
        simp only
        omega

theorem mergeSpans_spec (l : List (Nat × Nat)) (hwf : ∀ p ∈ l, p.1 ≤ p.2)
    (hpw : l.Pairwise (fun p q => p.2 < q.1)) :
    blockAddrs (mergeSpans l) = blockAddrs l ∧
    (∀ r ∈ mergeSpans l, r.1 ≤ r.2) ∧
    (mergeSpans l).Pairwise (fun r r' => r.2 + 1 < r'.1) := by
  cases l with
  | nil => exact ⟨rfl, by simp [mergeSpans], by simp [mergeSpans]⟩
  | cons p rest =>
    rcases p with ⟨s, e⟩
    obtain ⟨ha, hm, hp⟩ := mergeLoop_spec rest s e (hwf (s, e) (by simp))
      (fun q hq => hwf q (by simp [hq]))
      ((List.pairwise_cons.mp hpw).2)
      ((List.pairwise_cons.mp hpw).1)
    refine ⟨?_, ?_, ?_⟩
    · simp only [mergeSpans]
      rw [ha, blockAddrs_cons]
    · intro r hr
      exact (hm r hr).2
    · exact hp

theorem splitChunksAux_spec :
    ∀ (fuel cur e : Nat), e + 1 - cur ≤ fuel →
      blockAddrs (splitChunksAux fuel cur e) = List.range' cur (e + 1 - cur) ∧
      (∀ r ∈ splitChunksAux fuel cur e,
        cur ≤ r.1 ∧ r.1 ≤ r.2 ∧ r.2 ≤ e ∧ r.2 + 1 - r.1 ≤ 50) ∧
      (splitChunksAux fuel cur e).Pairwise (fun r r' => r.2 < r'.1) := by
  intro fuel
  induction fuel with
  | zero =>
    intro cur e hf
    refine ⟨?_, by simp [splitChunksAux], by simp [splitChunksAux]⟩
    simp [splitChunksAux, blockAddrs, show e + 1 - cur = 0 from by omega]
  | succ fuel ih =>
    intro cur e hf
    by_cases hce : cur ≤ e
    · have hoe1 : cur ≤ min (cur + 50 - 1) e := by omega
      have hoe2 : min (cur + 50 - 1) e ≤ e := by omega
      obtain ⟨ha, hm, hp⟩ := ih (min (cur + 50 - 1) e + 1) e (by omega)
      refine ⟨?_, ?_, ?_⟩
      · simp only [splitChunksAux, if_pos hce]
        rw [blockAddrs_cons, ha]
        have hr := range'_append_nat cur (min (cur + 50 - 1) e + 1 - cur)
          (e + 1 - (min (cur + 50 - 1) e + 1))
        rw [show cur + (min (cur + 50 - 1) e + 1 - cur) =
          min (cur + 50 - 1) e + 1 from by omega] at hr
        show List.range' cur (min (cur + 50 - 1) e + 1 - cur) ++
            List.range' (min (cur + 50 - 1) e + 1) (e + 1 - (min (cur + 50 - 1) e + 1)) =
          List.range' cur (e + 1 - cur)
        rw [hr]
        congr 1
        omega
      · intro r hr
        simp only [splitChunksAux, if_pos hce] at hr
        rcases List.mem_cons.mp hr with rfl | hr
        · exact ⟨le_refl _, hoe1, hoe2, by omega⟩
        · have h := hm r hr
          exact ⟨by omega, h.2.1, h.2.2.1, h.2.2.2⟩
      · simp only [splitChunksAux, if_pos hce]
        refine List.pairwise_cons.mpr ⟨?_, hp⟩
        intro r hr
        have h := hm r hr
        simp only
        omega
    · refine ⟨?_, by simp [splitChunksAux, if_neg hce], by simp [splitChunksAux, if_neg hce]⟩
      simp [splitChunksAux, if_neg hce, blockAddrs, show e + 1 - cur = 0 from by omega]

theorem flatSplit_spec (l : List (Nat × Nat)) (hwf : ∀ r ∈ l, r.1 ≤ r.2)
    (hpw : l.Pairwise (fun r r' => r.2 + 1 < r'.1)) :
    blockAddrs (l.flatMap (fun p => splitChunks p.1 p.2)) = blockAddrs l ∧
    (∀ r ∈ l.flatMap (fun p => splitChunks p.1 p.2),
      r.1 ≤ r.2 ∧ r.2 + 1 - r.1 ≤ 50) ∧
    (l.flatMap (fun p => splitChunks p.1 p.2)).Pairwise (fun r r' => r.2 < r'.1) := by
  induction l with
  | nil => exact ⟨rfl, by simp, by simp⟩
  | cons p rest ih =>
    rcases p with ⟨s, e⟩
    obtain ⟨ha, hm, hp⟩ := splitChunksAux_spec (e + 1 - s) s e (le_refl _)
    obtain ⟨iha, ihm, ihp⟩ := ih (fun q hq => hwf q (by simp [hq]))
      ((List.pairwise_cons.mp hpw).2)
    have hhead := (List.pairwise_cons.mp hpw).1
    refine ⟨?_, ?_, ?_⟩
    · have ha2 : blockAddrs (splitChunks s e) = List.range' s (e + 1 - s) := ha
      rw [List.flatMap_cons, show blockAddrs (splitChunks s e ++
          rest.flatMap (fun p => splitChunks p.1 p.2)) =
          blockAddrs (splitChunks s e) ++
          blockAddrs (rest.flatMap (fun p => splitChunks p.1 p.2)) from
          by simp [blockAddrs], ha2, iha, blockAddrs_cons]
    · intro r hr
      rw [List.flatMap_cons, List.mem_append] at hr
      rcases hr with hr | hr
      · have h := hm r hr
        exact ⟨h.2.1, h.2.2.2⟩
      · exact ihm r hr
    · rw [List.flatMap_cons]
      refine List.pairwise_append.mpr ⟨hp, ihp, ?_⟩
      intro a hain b hbin
      obtain ⟨q, hq, hbq⟩ := List.mem_flatMap.mp hbin
      obtain ⟨hq1, hq2, hq3, hq4⟩ := (splitChunksAux_spec (q.2 + 1 - q.1) q.1 q.2
        (le_refl _)).2.1 b hbq
      have hae := (hm a hain).2.2.1
      have := hhead q hq
      omega

theorem catalog_cnt_pos : ∀ p ∈ READ_REGS, 1 ≤ p.2.cnt := by decide

theorem catalog_noMerge_cnt1 : ∀ p ∈ READ_REGS, noMergeReal p.1 = true → p.2.cnt = 1 := by
  decide

theorem readRegs_cnt_pos (k : String) (spec : RegSpec) (h : readRegs k = some spec) :
    1 ≤ spec.cnt :=
  catalog_cnt_pos (k, spec) (lookup_mem k spec _ h)

theorem buildSpans_noMerge_eq :
    ∀ keys : List String,
      buildSpans readRegs noMergeReal keys =
        buildSpans readRegs (fun _ => false) keys := by
  intro keys
  induction keys with
  | nil => rfl
  | cons k ks ih =>
    cases hk : readRegs k with
    | none => simp [buildSpans, hk]
    | some spec =>
      by_cases hm : noMergeReal k = true
      · have hc : spec.cnt = 1 :=
          catalog_noMerge_cnt1 (k, spec) (lookup_mem k spec _ hk) hm
        simp [buildSpans, hk, hm, ih, hc]
      · simp only [Bool.not_eq_true] at hm
        simp [buildSpans, hk, hm, ih]

theorem buildSpans_wf {κ : Type} (lookup : κ → Option RegSpec)
    (hcnt : ∀ k spec, lookup k = some spec → 1 ≤ spec.cnt) :
    ∀ (keys : List κ) (spans : List (Nat × Nat)),
      buildSpans lookup (fun _ => false) keys = some spans →
      ∀ p ∈ spans, p.1 ≤ p.2 := by
  intro keys
  induction keys with
  | nil =>
    intro spans h
    cases h
    simp
  | cons k ks ih =>
    intro spans h
    cases hk : lookup k with
    | none => simp [buildSpans, hk] at h
    | some spec =>
      rcases hrest : buildSpans lookup (fun _ => false) ks with _ | rest
      · simp [buildSpans, hk, hrest] at h
      · simp [buildSpans, hk, hrest] at h
        subst h
        intro p hp
        rcases List.mem_cons.mp hp with rfl | hp
        · have := hcnt k spec hk
          simp only
          omega
        · exact ih rest hrest p hp

theorem catalog120_cnt_pos (k : Nat) (spec : RegSpec) (h : catalog120 k = some spec) :
    1 ≤ spec.cnt := by
  by_cases hk : k < 120 <;> simp [catalog120, hk] at h
  rw [← h]

set_option maxRecDepth 10000 in
set_option maxHeartbeats 4000000 in
/-- C5: for every list of requested keys whose (untruncated) catalog
spans are pairwise disjoint, the planner's output `blocks` is an
ascending, non-overlapping list of ranges, each non-empty and at most
50 words wide, whose covered word addresses are a permutation of (and
hence exactly equal to, without duplicates) the requested spans' words;
and 120 contiguous single-word keys yield the three ranges
(8000–8049), (8050–8099), (8100–8119), totalling exactly 120 words. -/
theorem C5_block_planner_ranges :
    (∀ (keys : List String) (spans blocks : List (Nat × Nat)),
      keys.Nodup →
      buildSpans readRegs (fun _ => false) keys = some spans →
      spans.Pairwise spanDisjoint →
      _group_blocks readRegs noMergeReal keys = some blocks →
      blocks.Pairwise (fun r r' => r.2 < r'.1) ∧
      (∀ r ∈ blocks, r.1 ≤ r.2 ∧ r.2 + 1 - r.1 ≤ 50) ∧
      (blockAddrs blocks).Nodup ∧
      List.Perm (blockAddrs blocks) (blockAddrs spans)) ∧
    (_group_blocks catalog120 (fun _ => false) (List.range 120) =
      some [(8000, 8049), (8050, 8099), (8100, 8119)] ∧
     (blockAddrs [(8000, 8049), (8050, 8099), (8100, 8119)]).length = 120) := by
  constructor
  · intro keys spans blocks hnd hbs hdisj hgb
    have hbs2 : buildSpans readRegs noMergeReal keys = some spans := by
      rw [buildSpans_noMerge_eq]
      exact hbs
    have hblocks : blocks = (mergeSpans (sortSpans spans)).flatMap
        (fun p => splitChunks p.1 p.2) := by
      unfold _group_blocks at hgb
      rw [hbs2] at hgb
      simp at hgb
      exact hgb.symm
    have hwf : ∀ p ∈ spans, p.1 ≤ p.2 :=
      buildSpans_wf readRegs readRegs_cnt_pos keys spans hbs
    have hperm := sortSpans_perm spans
    have hwfs : ∀ p ∈ sortSpans spans, p.1 ≤ p.2 :=
      fun p hp => hwf p (hperm.mem_iff.mp hp)
    have hdisj_s : (sortSpans spans).Pairwise spanDisjoint := by
      refine ((sortSpans_perm spans).pairwise_iff ?_).mpr hdisj
      intro a b hab
      exact Or.elim hab Or.inr Or.inl
    have hstrict := strict_of_sorted_disjoint _ hwfs (sortSpans_sorted spans) hdisj_s
    obtain ⟨hma, hmm, hmp⟩ := mergeSpans_spec _ hwfs hstrict
    obtain ⟨hfa, hfm, hfp⟩ := flatSplit_spec _ hmm hmp
    subst hblocks
    have hpermaddr : List.Perm (blockAddrs (sortSpans spans)) (blockAddrs spans) :=
      List.Perm.flatMap_right _ hperm
    refine ⟨hfp, hfm, ?_, ?_⟩
    · rw [hfa, hma]
      exact hpermaddr.nodup_iff.mpr (blockAddrs_nodup spans hdisj)
    · rw [hfa, hma]
      exact hpermaddr
  · exact ⟨by decide, by decide⟩

/-- Witness for C5 at the two disjoint-span keys `temp_out_C` (8019) and
`op_hours_total_h` (8027–8028). -/
theorem C5_witness :
    ([(8019, 8019), (8027, 8028)] : List (Nat × Nat)).Pairwise
      (fun r r' => r.2 < r'.1) ∧
    (∀ r ∈ ([(8019, 8019), (8027, 8028)] : List (Nat × Nat)),
      r.1 ≤ r.2 ∧ r.2 + 1 - r.1 ≤ 50) ∧
    (blockAddrs [(8019, 8019), (8027, 8028)]).Nodup ∧
    List.Perm (blockAddrs [(8019, 8019), (8027, 8028)])
      (blockAddrs [(8019, 8019), (8027, 8028)]) :=
  C5_block_planner_ranges.1 ["temp_out_C", "op_hours_total_h"]
    [(8019, 8019), (8027, 8028)] [(8019, 8019), (8027, 8028)]
    (by decide) (by decide)
    (by norm_num [spanDisjoint]) (by decide)
